import Mathlib

/-!
Verification development for the medimind backend core: the extraction
normalization pipeline and the reminder dispatch engine
(`prescription/routes.py` and `scheduler/reminder_scheduler.py`),
shallowly embedded over a JSON-like value type. Python dicts are
modelled as association lists with first-match lookup and first-match
replacing assignment (Python dicts have unique keys, so this agrees
with dict semantics on every value a JSON parse can produce); Python
truthiness is modelled explicitly; the external JSON parser
(`json.loads`) is modelled as an oracle `String → Option JVal` where
`none` is a parse failure, and the external notifier is an oracle that
may succeed, report failure, or raise (`Except Unit Bool`).
-/

/-- A JSON-like value, the type of data flowing through the pipeline.
JSON numbers are modelled as integers (no claim depends on numeric values). -/
inductive JVal where
  | null
  | bool (b : Bool)
  | num (n : Int)
  | str (s : String)
  | arr (xs : List JVal)
  | obj (fields : List (String × JVal))

namespace JVal

/-- Python truthiness of a JSON value. -/
def truthy : JVal → Bool
  | .null => false
  | .bool b => b
  | .num n => n != 0
  | .str s => !s.isEmpty
  | .arr xs => !xs.isEmpty
  | .obj fs => !fs.isEmpty

/-- Whether the value is an object (Python `isinstance(x, dict)`). -/
def isObj : JVal → Bool
  | .obj _ => true
  | _ => false

/-- Python `x == []` for a JSON value. -/
def isEmptyList : JVal → Bool
  | .arr [] => true
  | _ => false

/-- Whether the value is an array (Python `isinstance(x, list)`). -/
def isArr : JVal → Bool
  | .arr _ => true
  | _ => false

/-- Python `v == p` where `p` is a string. -/
def isStrVal : JVal → String → Bool
  | .str s, p => s == p
  | _, _ => false

end JVal

/-- Dict lookup: `d.get(k)` without default, first (unique) matching key. -/
def getField : List (String × JVal) → String → Option JVal
  | [], _ => none
  | (k', v') :: rest, k => if k' = k then some v' else getField rest k

/-- Dict assignment `d[k] = v`: replace the (unique) existing binding in
place, or append a new binding at the end, as Python dicts do. -/
def setField : List (String × JVal) → String → JVal → List (String × JVal)
  | [], k, v => [(k, v)]
  | (k', v') :: rest, k, v =>
      if k' = k then (k, v) :: rest else (k', v') :: setField rest k v

/-- The `valid_timings` list of `upload_prescription`. -/
def valid_timings : List String := ["morning", "afternoon", "evening", "night"]

/-- Python `t in valid_timings` (equality against a list of strings). -/
def isValidTiming : JVal → Bool
  | .str s => valid_timings.contains s
  | _ => false

/-- The four keys whose `null`/missing values are replaced by "N/A". -/
def nullKeys : List String := ["medicine_name", "dosage", "quantity", "frequency"]

/-- One step of the null-cleanup loop:
`if medicine.get(key) is None: medicine[key] = "N/A"`
(`.get(key)` is `None` both when the key is missing and when it is null). -/
def fixNull (fs : List (String × JVal)) (k : String) : List (String × JVal) :=
  match getField fs k with
  | none => setField fs k (.str "N/A")
  | some .null => setField fs k (.str "N/A")
  | some _ => fs

/-- The timings-cleanup step of the normalization loop:
`timings = medicine.get("timings", [])`;
`if timings and isinstance(timings, list):` filter to `valid_timings`,
then default to `["morning"]` if the filtered list is falsy. -/
def fixTimings (fs : List (String × JVal)) : List (String × JVal) :=
  match (getField fs "timings").getD (.arr []) with
  | .arr ts =>
      if (JVal.arr ts).truthy then
        let filtered := ts.filter isValidTiming
        let fs1 := setField fs "timings" (.arr filtered)
        if !(JVal.arr filtered).truthy then
          setField fs1 "timings" (.arr [.str "morning"])
        else fs1
      else fs
  | _ => fs

/-- Normalization of the fields of one record: the four null-cleanups in
source order, then the timings cleanup. -/
def normFields (fs : List (String × JVal)) : List (String × JVal) :=
  fixTimings (nullKeys.foldl fixNull fs)

/-- Normalization of one parsed element: objects are cleaned in place,
anything else is left untouched by the loop body (the `isinstance` guard). -/
def normRecord : JVal → JVal
  | .obj fs => .obj (normFields fs)
  | v => v

/-- The placeholder record produced on a parse failure. -/
def fallbackRecord : JVal :=
  .obj [("medicine_name", .str "Unknown"), ("dosage", .str "As prescribed"),
        ("frequency", .str "Daily"), ("timings", .arr [.str "morning"])]

/-- The `medicines` value produced on a parse failure. -/
def fallbackMedicines : JVal := .arr [fallbackRecord]

/-- Whether Python can iterate the value with `for medicine in medicines`
(arrays, objects and strings are iterable; `None`, booleans and numbers
raise `TypeError`, which the surrounding `except` turns into the fallback). -/
def iterableJ : JVal → Bool
  | .arr _ => true
  | .obj _ => true
  | .str _ => true
  | _ => false

/-- The elements `for medicine in medicines` iterates over: array elements,
object keys, or one-character strings. -/
def elemsOf : JVal → List JVal
  | .arr xs => xs
  | .obj fs => fs.map (fun p => .str p.1)
  | .str s => s.toList.map (fun c => .str (String.mk [c]))
  | _ => []

/-- The `try` block around `json.loads` and the cleanup loop: a parse
failure, or a parsed value that cannot be iterated, yields the fallback
placeholder list; an array has each element normalized in place; other
iterable values are left unchanged by the loop. -/
def normalizeMedicines : Option JVal → JVal
  | none => fallbackMedicines
  | some (.arr xs) => .arr (xs.map normRecord)
  | some v => if iterableJ v then v else fallbackMedicines

/-- The sentinel check `medicine_name in ["N/A", "Unknown", "Unknown Medicine"]`. -/
def isSentinelName : JVal → Bool
  | .str s => ["N/A", "Unknown", "Unknown Medicine"].contains s
  | _ => false

/-- A schedule document as inserted by `upload_prescription`
(`_id` and `created_at` are assigned by the store model). -/
structure SchedDoc where
  user_id : String
  prescription_id : String
  medicine_name : JVal
  dosage : JVal
  frequency : JVal
  timings : JVal

/-- The body of the schedule-creation loop for one element: `continue`
(modelled as `none`) on a non-dict, a falsy or sentinel name, or falsy or
empty-list timings; otherwise the inserted document. -/
def scheduleDocFor (uid pid : String) (m : JVal) : Option SchedDoc :=
  match m with
  | .obj fs =>
      let medicine_name := (getField fs "medicine_name").getD (.str "N/A")
      let timings := (getField fs "timings").getD (.arr [])
      if !medicine_name.truthy || isSentinelName medicine_name then none
      else if !timings.truthy || timings.isEmptyList then none
      else some { user_id := uid, prescription_id := pid,
                  medicine_name := medicine_name,
                  dosage := (getField fs "dosage").getD (.str "N/A"),
                  frequency := (getField fs "frequency").getD (.str "N/A"),
                  timings := timings }
  | _ => none

/-- The schedule-creation loop of `upload_prescription` (lines 241-264):
iterate the normalized `medicines`, skipping ineligible elements,
collecting the documents to insert in order. -/
def schedulesLoop (uid pid : String) : List JVal → List SchedDoc
  | [] => []
  | m :: rest =>
      match scheduleDocFor uid pid m with
      | none => schedulesLoop uid pid rest
      | some d => d :: schedulesLoop uid pid rest

/-- The full schedule-creation pass over the normalized `medicines`. -/
def makeSchedules (uid pid : String) (medicines : JVal) : List SchedDoc :=
  schedulesLoop uid pid (elemsOf medicines)

/-- A stored user: the `_id` (as a string) and the optional `email` field
(`none` when `"email" not in user`). -/
structure User where
  id : String
  email : Option String

/-- A stored medicine schedule document.  `created_at` carries no claim and
is omitted; times are modelled as naturals. -/
structure Sched where
  id : Nat
  user_id : String
  prescription_id : String
  medicine_name : JVal
  dosage : JVal
  frequency : JVal
  timings : JVal
  enabled : Bool
  last_reminder_sent : Option Nat

/-- A stored prescription document. -/
structure Prescription where
  id : Nat
  user_id : String
  raw_text : String
  structured_data : String

/-- The document store: users, prescriptions, schedules, and a counter
supplying fresh `_id`s (Mongo `_id`s are unique). -/
structure Store where
  users : List User
  prescriptions : List Prescription
  schedules : List Sched
  nextId : Nat

/-- An `HTTPException`: status code and detail. -/
structure HErr where
  status : Nat
  detail : String
  deriving DecidableEq

/-- The JSON body returned by a successful upload. -/
structure UploadResp where
  success : Bool
  prescription_id : String
  schedule_ids : List String
  medicines : JVal

/-- Whether `sync_users.find_one({"_id": ObjectId(user_id)})` finds a user. -/
def userExists (st : Store) (uid : String) : Bool :=
  st.users.any (fun u => u.id == uid)

/-- Mongo `update_one` with an `_id` filter: rewrite the first (unique)
matching document, leave the rest unchanged. -/
def updateById : List Sched → Nat → (Sched → Sched) → List Sched
  | [], _, _ => []
  | s :: rest, i, f =>
      if s.id = i then f s :: rest else s :: updateById rest i f

/-- Mongo `delete_one` with an `_id` filter: remove the first (unique)
matching document; also return the `deleted_count`. -/
def deleteById : List Sched → Nat → List Sched × Nat
  | [], _ => ([], 0)
  | s :: rest, i =>
      if s.id = i then (rest, 1)
      else
        let r := deleteById rest i
        (s :: r.1, r.2)

/-- The `sync_prescriptions.insert_one(prescription_doc)` call: returns the updated
store and the inserted `_id`. -/
def insertPrescription (st : Store) (uid text structured : String) : Store × Nat :=
  let pid := st.nextId
  let doc : Prescription :=
    { id := pid, user_id := uid, raw_text := text, structured_data := structured }
  ({ st with prescriptions := st.prescriptions ++ [doc], nextId := pid + 1 }, pid)

/-- The insertion loop of `upload_prescription`: one `insert_one` per
eligible document, collecting `str(schedule_id)` in order.  Inserted
schedules get `enabled = True` and `last_reminder_sent = None`. -/
def insertScheduleDocs : Store → List SchedDoc → Store × List String
  | st, [] => (st, [])
  | st, d :: rest =>
      let sid := st.nextId
      let sdoc : Sched :=
        { id := sid, user_id := d.user_id, prescription_id := d.prescription_id,
          medicine_name := d.medicine_name, dosage := d.dosage,
          frequency := d.frequency, timings := d.timings,
          enabled := true, last_reminder_sent := none }
      let r := insertScheduleDocs
        { st with schedules := st.schedules ++ [sdoc], nextId := sid + 1 } rest
      (r.1, toString sid :: r.2)

/-- The markdown code-fence cleanup applied to the raw reply before parsing
and before storing it as `structured_data`. -/
def cleanMarkdown (s : String) : String :=
  let c := s.trim
  let c :=
    if c.startsWith "```json" then (c.drop 7).trim
    else if c.startsWith "```" then (c.drop 3).trim
    else c
  if c.endsWith "```" then (c.dropRight 3).trim else c

/-- The upload route (`routes.py` lines 171-287).  External collaborators
are inputs: `ocrText` is the OCR result, `llm` the inference call outcome
(`.error` when it raises, turned into a 500), and `parse` the JSON parser
oracle (`json.loads`, `none` on parse failure).  Returns the store after
the request and the HTTP outcome; on an error raised before any write the
original store is returned unchanged. -/
def upload_prescription (st : Store) (uid : String) (ocrText : String)
    (llm : Except String String) (parse : String → Option JVal) :
    Store × Except HErr UploadResp :=
  if !userExists st uid then
    (st, .error { status := 404, detail := "User not found" })
  else
    match llm with
    | .error e =>
        (st, .error { status := 500,
                      detail := "OpenRouter LLM extraction failed: " ++ e })
    | .ok reply =>
        let cleaned := cleanMarkdown reply
        let ins := insertPrescription st uid ocrText cleaned
        let medicines := normalizeMedicines (parse cleaned)
        let docs := makeSchedules uid (toString ins.2) medicines
        let ins2 := insertScheduleDocs ins.1 docs
        (ins2.1, .ok { success := true, prescription_id := toString ins.2,
                       schedule_ids := ins2.2, medicines := medicines })

/-- The toggle route (`routes.py` lines 307-327): `update_one` on the id,
then 404 if `matched_count == 0`. -/
def toggle_schedule (st : Store) (sid : Nat) (enabledFlag : Bool) :
    Store × Except HErr String :=
  let st' := { st with
    schedules := updateById st.schedules sid (fun s => { s with enabled := enabledFlag }) }
  if st.schedules.any (fun s => s.id == sid) then
    (st', .ok (if enabledFlag then "Schedule enabled successfully"
               else "Schedule disabled successfully"))
  else
    (st', .error { status := 404, detail := "Schedule not found" })

/-- The delete route (`routes.py` lines 329-345): `delete_one` on the id,
then 404 if `deleted_count == 0`. -/
def delete_schedule (st : Store) (sid : Nat) : Store × Except HErr String :=
  let r := deleteById st.schedules sid
  if r.2 == 0 then
    ({ st with schedules := r.1 }, .error { status := 404, detail := "Schedule not found" })
  else
    ({ st with schedules := r.1 }, .ok "Schedule deleted successfully")

/-- Period resolution of `check_and_send_reminders` (lines 20-30), a pure
function of the current hour. -/
def timing_period (hour : Nat) : String :=
  if 6 ≤ hour ∧ hour < 12 then "morning"
  else if 12 ≤ hour ∧ hour < 17 then "afternoon"
  else if 17 ≤ hour ∧ hour < 21 then "evening"
  else "night"

/-- The Mongo query clause `{"timings": timing_period}`: matches a document
whose `timings` field is an array containing the string, or equals it. -/
def timingsMatch : JVal → String → Bool
  | .arr ts, p => ts.any (fun t => t.isStrVal p)
  | v, p => v.isStrVal p

/-- The `sync_users.find_one({"_id": ObjectId(schedule["user_id"])})` call followed
by the `"email" in user` check: the contact address for a schedule owner,
if resolvable. -/
def resolveEmail (users : List User) (uid : String) : Option String :=
  match users.find? (fun u => u.id == uid) with
  | some u => u.email
  | none => none

/-- One notifier invocation as observed at the boundary:
`send_medication_reminder(to_email, medicine_name, dosage, timing)`. -/
structure NotifyCall where
  to_email : String
  medicine_name : JVal
  dosage : JVal
  timing : String

/-- The update `{"$set": {"last_reminder_sent": datetime.utcnow()}}`. -/
def setNow (now : Nat) (s : Sched) : Sched :=
  { s with last_reminder_sent := some now }

/-- The body of the per-schedule loop of `check_and_send_reminders`: skip
when the owner or their email cannot be resolved; otherwise invoke the
notifier (recording the call); persist `last_reminder_sent = now` only on
a success report; a failure report or an exception (`.error`) leaves the
store untouched and processing continues. -/
def runLoop (users : List User)
    (notify : String → JVal → JVal → String → Except Unit Bool)
    (period : String) (now : Nat) :
    List Sched → List Sched → List Sched × List NotifyCall
  | scheds, [] => (scheds, [])
  | scheds, s :: rest =>
      match resolveEmail users s.user_id with
      | none => runLoop users notify period now scheds rest
      | some em =>
          let call : NotifyCall :=
            { to_email := em, medicine_name := s.medicine_name,
              dosage := s.dosage, timing := period }
          match notify em s.medicine_name s.dosage period with
          | .ok true =>
              let r := runLoop users notify period now
                (updateById scheds s.id (setNow now)) rest
              (r.1, call :: r.2)
          | _ =>
              let r := runLoop users notify period now scheds rest
              (r.1, call :: r.2)

/-- The dispatch run (`check_and_send_reminders`, lines 13-76): resolve the
period from the current hour, snapshot the matching enabled schedules, and
process each independently.  Returns the store after the run and the list
of notifier calls made, in order. -/
def check_and_send_reminders (st : Store) (hour now : Nat)
    (notify : String → JVal → JVal → String → Except Unit Bool) :
    Store × List NotifyCall :=
  let period := timing_period hour
  let matching := st.schedules.filter (fun s => s.enabled && timingsMatch s.timings period)
  let r := runLoop st.users notify period now st.schedules matching
  ({ st with schedules := r.1 }, r.2)

/-- Whether the notifier reports success for a schedule in a run: the owner
resolves to an email and the notifier returns success (not failure, not an
exception). -/
def reminderSent (users : List User)
    (notify : String → JVal → JVal → String → Except Unit Bool)
    (period : String) (s : Sched) : Bool :=
  match resolveEmail users s.user_id with
  | none => false
  | some em =>
      match notify em s.medicine_name s.dosage period with
      | .ok true => true
      | _ => false

/-- The §3 invariant on a stored `timings` value: a non-empty array all of
whose elements are among the four timing strings. -/
def timingsOkB : JVal → Bool
  | .arr ts => !ts.isEmpty && ts.all isValidTiming
  | _ => false

/-- A record whose raw `timings` field the normalization loop actually
covers: the field is missing, or its value is a list, or it is falsy.
(The code leaves a truthy non-list `timings` value untouched and the
persistence filter then accepts it verbatim.) -/
def rawTimingsTameB : JVal → Bool
  | .obj fs =>
      match getField fs "timings" with
      | none => true
      | some v => v.isArr || !v.truthy
  | _ => true

/-- A parse outcome all of whose records are covered by the timings
normalization (non-array outcomes produce no schedules at all). -/
def tameParsed : Option JVal → Prop
  | some (.arr xs) => ∀ m ∈ xs, rawTimingsTameB m = true
  | _ => True

/-! ### Association-list lemmas -/

theorem getField_setField_self (fs : List (String × JVal)) (k : String) (v : JVal) :
    getField (setField fs k v) k = some v := by
  induction fs with
  | nil => simp [setField, getField]
  | cons p rest ih =>
      obtain ⟨k0, v0⟩ := p
      by_cases h0 : k0 = k
      · simp [setField, h0, getField]
      · simp [setField, h0, getField, ih]

theorem getField_setField_ne (fs : List (String × JVal)) (k k' : String) (v : JVal)
    (h : k' ≠ k) : getField (setField fs k' v) k = getField fs k := by
  induction fs with
  | nil => simp [setField, getField, h]
  | cons p rest ih =>
      obtain ⟨k0, v0⟩ := p
      by_cases h0 : k0 = k'
      · subst h0
        simp [setField, getField, h]
      · by_cases h1 : k0 = k
        · simp [setField, getField, h0, h1, Ne.symm h]
        · simp [setField, getField, h0, h1, ih]

theorem setField_getField_self (fs : List (String × JVal)) (k : String) (v : JVal)
    (h : getField fs k = some v) : setField fs k v = fs := by
  induction fs with
  | nil => simp [getField] at h
  | cons p rest ih =>
      obtain ⟨k0, v0⟩ := p
      by_cases h0 : k0 = k
      · subst h0
        simp [getField] at h
        simp [setField, h]
      · simp [getField, h0] at h
        simp [setField, h0, ih h]

theorem setField_setField_self (fs : List (String × JVal)) (k : String) (v w : JVal) :
    setField (setField fs k v) k w = setField fs k w := by
  induction fs with
  | nil => simp [setField]
  | cons p rest ih =>
      obtain ⟨k0, v0⟩ := p
      by_cases h0 : k0 = k
      · simp [setField, h0]
      · simp [setField, h0, ih]

/-! ### Null-cleanup lemmas -/

theorem getField_fixNull_ne (fs : List (String × JVal)) (k k' : String) (h : k' ≠ k) :
    getField (fixNull fs k') k = getField fs k := by
  unfold fixNull
  cases hg : getField fs k' with
  | none => exact getField_setField_ne _ _ _ _ h
  | some v => cases v <;> simp [getField_setField_ne _ _ _ _ h]

theorem fixNull_nonNull (fs : List (String × JVal)) (k : String) :
    ∃ v, getField (fixNull fs k) k = some v ∧ v ≠ JVal.null := by
  unfold fixNull
  cases hg : getField fs k with
  | none => exact ⟨.str "N/A", getField_setField_self _ _ _, fun h => JVal.noConfusion h⟩
  | some v =>
      cases v with
      | null => exact ⟨.str "N/A", getField_setField_self _ _ _, fun h => JVal.noConfusion h⟩
      | bool b => exact ⟨.bool b, hg, fun h => JVal.noConfusion h⟩
      | num n => exact ⟨.num n, hg, fun h => JVal.noConfusion h⟩
      | str s => exact ⟨.str s, hg, fun h => JVal.noConfusion h⟩
      | arr xs => exact ⟨.arr xs, hg, fun h => JVal.noConfusion h⟩
      | obj gs => exact ⟨.obj gs, hg, fun h => JVal.noConfusion h⟩

theorem fixNull_id (fs : List (String × JVal)) (k : String) (v : JVal)
    (hg : getField fs k = some v) (hv : v ≠ JVal.null) : fixNull fs k = fs := by
  unfold fixNull
  rw [hg]
  cases v with
  | null => exact absurd rfl hv
  | bool b => rfl
  | num n => rfl
  | str s => rfl
  | arr xs => rfl
  | obj gs => rfl

/-! ### Timings-cleanup lemmas -/

theorem fixTimings_eq_or_set (fs : List (String × JVal)) :
    fixTimings fs = fs ∨ ∃ v, fixTimings fs = setField fs "timings" v := by
  unfold fixTimings
  cases hg : (getField fs "timings").getD (.arr []) with
  | arr ts =>
      by_cases ht : (JVal.arr ts).truthy = true
      · right
        by_cases hf : (JVal.arr (ts.filter isValidTiming)).truthy = true
        · exact ⟨.arr (ts.filter isValidTiming), by simp [ht, hf]⟩
        · exact ⟨.arr [.str "morning"],
            by simp [ht, Bool.eq_false_iff.mpr hf, setField_setField_self]⟩
      · left
        simp [Bool.not_eq_true] at ht
        simp [ht]
  | null => left; rfl
  | bool b => left; rfl
  | num n => left; rfl
  | str s => left; rfl
  | obj gs => left; rfl

theorem getField_fixTimings_ne (fs : List (String × JVal)) (k : String)
    (h : k ≠ "timings") : getField (fixTimings fs) k = getField fs k := by
  rcases fixTimings_eq_or_set fs with he | ⟨v, he⟩
  · rw [he]
  · rw [he, getField_setField_ne _ _ _ _ (Ne.symm h)]

theorem fixTimings_of_cons (fs : List (String × JVal)) (ts : List JVal)
    (hg : getField fs "timings" = some (.arr ts)) (hne : ts ≠ []) :
    fixTimings fs = setField fs "timings"
      (.arr (if (ts.filter isValidTiming).isEmpty then [.str "morning"]
             else ts.filter isValidTiming)) := by
  unfold fixTimings
  rw [hg]
  have ht : (JVal.arr ts).truthy = true := by
    simp [JVal.truthy, List.isEmpty_iff, hne]
  simp only [Option.getD_some]
  rw [if_pos ht]
  by_cases hf : (ts.filter isValidTiming).isEmpty
  · simp [JVal.truthy, hf, setField_setField_self]
  · simp [JVal.truthy, hf]

theorem fixTimings_id_of_none (fs : List (String × JVal))
    (hg : getField fs "timings" = none) : fixTimings fs = fs := by
  unfold fixTimings
  rw [hg]
  simp [JVal.truthy]

theorem fixTimings_id_of_nil (fs : List (String × JVal))
    (hg : getField fs "timings" = some (.arr [])) : fixTimings fs = fs := by
  unfold fixTimings
  rw [hg]
  simp [JVal.truthy]

theorem fixTimings_id_of_nonlist (fs : List (String × JVal)) (v : JVal)
    (hg : getField fs "timings" = some v) (hv : v.isArr = false) :
    fixTimings fs = fs := by
  unfold fixTimings
  rw [hg]
  cases v with
  | arr ts => simp [JVal.isArr] at hv
  | null => rfl
  | bool b => rfl
  | num n => rfl
  | str s => rfl
  | obj gs => rfl

/-! ### Record-normalization lemmas -/

theorem normFields_def (fs : List (String × JVal)) :
    normFields fs =
      fixTimings (fixNull (fixNull (fixNull (fixNull fs "medicine_name") "dosage")
        "quantity") "frequency") := rfl

theorem getField_fixNulls_timings (fs : List (String × JVal)) :
    getField (fixNull (fixNull (fixNull (fixNull fs "medicine_name") "dosage")
      "quantity") "frequency") "timings" = getField fs "timings" := by
  rw [getField_fixNull_ne _ _ _ (by decide), getField_fixNull_ne _ _ _ (by decide),
      getField_fixNull_ne _ _ _ (by decide), getField_fixNull_ne _ _ _ (by decide)]

theorem getField_normFields_timings (fs : List (String × JVal)) :
    getField (normFields fs) "timings" =
      getField (fixTimings (fixNull (fixNull (fixNull (fixNull fs "medicine_name")
        "dosage") "quantity") "frequency")) "timings" := rfl

theorem getField_normFields_nonNull (fs : List (String × JVal)) (k : String)
    (hk : k ∈ nullKeys) :
    ∃ v, getField (normFields fs) k = some v ∧ v ≠ JVal.null := by
  simp only [nullKeys, List.mem_cons, List.not_mem_nil, or_false] at hk
  rcases hk with rfl | rfl | rfl | rfl
  · obtain ⟨v, hv, hnn⟩ := fixNull_nonNull fs "medicine_name"
    refine ⟨v, ?_, hnn⟩
    rw [normFields_def, getField_fixTimings_ne _ _ (by decide),
        getField_fixNull_ne _ _ _ (by decide), getField_fixNull_ne _ _ _ (by decide),
        getField_fixNull_ne _ _ _ (by decide)]
    exact hv
  · obtain ⟨v, hv, hnn⟩ := fixNull_nonNull (fixNull fs "medicine_name") "dosage"
    refine ⟨v, ?_, hnn⟩
    rw [normFields_def, getField_fixTimings_ne _ _ (by decide),
        getField_fixNull_ne _ _ _ (by decide), getField_fixNull_ne _ _ _ (by decide)]
    exact hv
  · obtain ⟨v, hv, hnn⟩ :=
      fixNull_nonNull (fixNull (fixNull fs "medicine_name") "dosage") "quantity"
    refine ⟨v, ?_, hnn⟩
    rw [normFields_def, getField_fixTimings_ne _ _ (by decide),
        getField_fixNull_ne _ _ _ (by decide)]
    exact hv
  · obtain ⟨v, hv, hnn⟩ :=
      fixNull_nonNull (fixNull (fixNull (fixNull fs "medicine_name") "dosage")
        "quantity") "frequency"
    refine ⟨v, ?_, hnn⟩
    rw [normFields_def, getField_fixTimings_ne _ _ (by decide)]
    exact hv

theorem foldl_fixNull_normFields (fs : List (String × JVal)) :
    nullKeys.foldl fixNull (normFields fs) = normFields fs := by
  obtain ⟨v1, hv1, hn1⟩ := getField_normFields_nonNull fs "medicine_name" (by decide)
  obtain ⟨v2, hv2, hn2⟩ := getField_normFields_nonNull fs "dosage" (by decide)
  obtain ⟨v3, hv3, hn3⟩ := getField_normFields_nonNull fs "quantity" (by decide)
  obtain ⟨v4, hv4, hn4⟩ := getField_normFields_nonNull fs "frequency" (by decide)
  show fixNull (fixNull (fixNull (fixNull (normFields fs) "medicine_name") "dosage")
    "quantity") "frequency" = normFields fs
  rw [fixNull_id _ _ _ hv1 hn1, fixNull_id _ _ _ hv2 hn2, fixNull_id _ _ _ hv3 hn3,
      fixNull_id _ _ _ hv4 hn4]

theorem fixTimings_idem (fs : List (String × JVal)) :
    fixTimings (fixTimings fs) = fixTimings fs := by
  cases hg : getField fs "timings" with
  | none =>
      have h := fixTimings_id_of_none fs hg
      rw [h, h]
  | some v =>
      cases v with
      | arr ts =>
          cases ts with
          | nil =>
              have h := fixTimings_id_of_nil fs hg
              rw [h, h]
          | cons t ts' =>
              have hcons := fixTimings_of_cons fs (t :: ts') hg (by simp)
              have hget : getField (fixTimings fs) "timings" =
                  some (.arr (if ((t :: ts').filter isValidTiming).isEmpty
                    then [JVal.str "morning"] else (t :: ts').filter isValidTiming)) := by
                rw [hcons]
                exact getField_setField_self _ _ _
              have hval : ∀ x ∈ (if ((t :: ts').filter isValidTiming).isEmpty
                  then [JVal.str "morning"] else (t :: ts').filter isValidTiming),
                  isValidTiming x = true := by
                intro x hx
                by_cases hf : ((t :: ts').filter isValidTiming).isEmpty
                · rw [if_pos hf] at hx
                  simp only [List.mem_singleton] at hx
                  subst hx
                  decide
                · rw [if_neg hf] at hx
                  exact List.of_mem_filter hx
              have hne : (if ((t :: ts').filter isValidTiming).isEmpty
                  then [JVal.str "morning"] else (t :: ts').filter isValidTiming) ≠ [] := by
                by_cases hf : ((t :: ts').filter isValidTiming).isEmpty
                · rw [if_pos hf]
                  exact List.cons_ne_nil _ _
                · rw [if_neg hf]
                  exact fun h => hf (by rw [h]; rfl)
              have h2 := fixTimings_of_cons (fixTimings fs) _ hget hne
              rw [h2, List.filter_eq_self.mpr hval]
              have hnemp : (if ((t :: ts').filter isValidTiming).isEmpty
                  then [JVal.str "morning"] else (t :: ts').filter isValidTiming).isEmpty
                    = false := by
                rcases List.exists_cons_of_ne_nil hne with ⟨a, l, hl⟩
                rw [hl]
                rfl
              rw [hnemp]
              simp only [Bool.false_eq_true, if_false]
              exact setField_getField_self _ _ _ hget
      | null =>
          have h := fixTimings_id_of_nonlist fs _ hg rfl
          rw [h, h]
      | bool b =>
          have h := fixTimings_id_of_nonlist fs _ hg rfl
          rw [h, h]
      | num n =>
          have h := fixTimings_id_of_nonlist fs _ hg rfl
          rw [h, h]
      | str s =>
          have h := fixTimings_id_of_nonlist fs _ hg rfl
          rw [h, h]
      | obj gs =>
          have h := fixTimings_id_of_nonlist fs _ hg rfl
          rw [h, h]

theorem normFields_idem (fs : List (String × JVal)) :
    normFields (normFields fs) = normFields fs := by
  show fixTimings (nullKeys.foldl fixNull (normFields fs)) = normFields fs
  rw [foldl_fixNull_normFields]
  show fixTimings (fixTimings (nullKeys.foldl fixNull fs)) = normFields fs
  rw [fixTimings_idem]
  rfl

theorem normRecord_idem (v : JVal) : normRecord (normRecord v) = normRecord v := by
  cases v with
  | obj fs =>
      show JVal.obj (normFields (normFields fs)) = JVal.obj (normFields fs)
      rw [normFields_idem]
  | null => rfl
  | bool b => rfl
  | num n => rfl
  | str s => rfl
  | arr xs => rfl

theorem schedulesLoop_eq_filterMap (uid pid : String) (l : List JVal) :
    schedulesLoop uid pid l = l.filterMap (scheduleDocFor uid pid) := by
  induction l with
  | nil => rfl
  | cons m rest ih =>
      unfold schedulesLoop
      cases h : scheduleDocFor uid pid m <;> simp [h, ih, List.filterMap_cons]

/-! ### Timings-invariant lemmas -/

theorem goodTimings_all (ts : List JVal) :
    ∀ x ∈ (if (ts.filter isValidTiming).isEmpty then [JVal.str "morning"]
           else ts.filter isValidTiming), isValidTiming x = true := by
  intro x hx
  by_cases hf : (ts.filter isValidTiming).isEmpty
  · rw [if_pos hf] at hx
    simp only [List.mem_singleton] at hx
    subst hx
    decide
  · rw [if_neg hf] at hx
    exact List.of_mem_filter hx

theorem goodTimings_ne_nil (ts : List JVal) :
    (if (ts.filter isValidTiming).isEmpty then [JVal.str "morning"]
     else ts.filter isValidTiming) ≠ [] := by
  by_cases hf : (ts.filter isValidTiming).isEmpty
  · rw [if_pos hf]
    exact List.cons_ne_nil _ _
  · rw [if_neg hf]
    exact fun h => hf (by rw [h]; rfl)

theorem timingsOkB_of (l : List JVal) (hne : l ≠ [])
    (hall : ∀ x ∈ l, isValidTiming x = true) : timingsOkB (.arr l) = true := by
  simp [timingsOkB, List.isEmpty_iff, hne, List.all_eq_true]
  exact hall

theorem normFields_timings_shape (fs : List (String × JVal)) :
    (∃ ts, getField fs "timings" = some (.arr ts) ∧ ts ≠ [] ∧
       getField (normFields fs) "timings" =
         some (.arr (if (ts.filter isValidTiming).isEmpty then [JVal.str "morning"]
                     else ts.filter isValidTiming)))
    ∨ (getField (normFields fs) "timings" = getField fs "timings" ∧
       ∀ ts, getField fs "timings" = some (.arr ts) → ts = []) := by
  cases hg : getField fs "timings" with
  | none =>
      right
      constructor
      · rw [normFields_def,
            fixTimings_id_of_none _ (by rw [getField_fixNulls_timings]; exact hg),
            getField_fixNulls_timings, hg]
      · intro ts hts
        exact Option.noConfusion hts
  | some v =>
      cases v with
      | arr ts =>
          cases ts with
          | nil =>
              right
              constructor
              · rw [normFields_def,
                    fixTimings_id_of_nil _ (by rw [getField_fixNulls_timings]; exact hg),
                    getField_fixNulls_timings, hg]
              · intro ts' hts'
                injection hts' with h
                injection h with h2
                exact h2.symm
          | cons t ts' =>
              left
              refine ⟨t :: ts', rfl, List.cons_ne_nil _ _, ?_⟩
              rw [normFields_def,
                  fixTimings_of_cons _ (t :: ts')
                    (by rw [getField_fixNulls_timings]; exact hg)
                    (List.cons_ne_nil _ _)]
              exact getField_setField_self _ _ _
      | null =>
          right
          constructor
          · rw [normFields_def,
                fixTimings_id_of_nonlist _ JVal.null
                  (by rw [getField_fixNulls_timings]; exact hg) rfl,
                getField_fixNulls_timings, hg]
          · intro ts hts
            exact absurd hts (by simp)
      | bool b =>
          right
          constructor
          · rw [normFields_def,
                fixTimings_id_of_nonlist _ (JVal.bool b)
                  (by rw [getField_fixNulls_timings]; exact hg) rfl,
                getField_fixNulls_timings, hg]
          · intro ts hts
            exact absurd hts (by simp)
      | num n =>
          right
          constructor
          · rw [normFields_def,
                fixTimings_id_of_nonlist _ (JVal.num n)
                  (by rw [getField_fixNulls_timings]; exact hg) rfl,
                getField_fixNulls_timings, hg]
          · intro ts hts
            exact absurd hts (by simp)
      | str s =>
          right
          constructor
          · rw [normFields_def,
                fixTimings_id_of_nonlist _ (JVal.str s)
                  (by rw [getField_fixNulls_timings]; exact hg) rfl,
                getField_fixNulls_timings, hg]
          · intro ts hts
            exact absurd hts (by simp)
      | obj gs =>
          right
          constructor
          · rw [normFields_def,
                fixTimings_id_of_nonlist _ (JVal.obj gs)
                  (by rw [getField_fixNulls_timings]; exact hg) rfl,
                getField_fixNulls_timings, hg]
          · intro ts hts
            exact absurd hts (by simp)

theorem timingsOk_of_norm (uid pid : String) (m : JVal)
    (hm : rawTimingsTameB m = true) (d : SchedDoc)
    (hd : scheduleDocFor uid pid (normRecord m) = some d) :
    timingsOkB d.timings = true := by
  cases m with
  | null => exact absurd hd (by simp [normRecord, scheduleDocFor])
  | bool b => exact absurd hd (by simp [normRecord, scheduleDocFor])
  | num n => exact absurd hd (by simp [normRecord, scheduleDocFor])
  | str s => exact absurd hd (by simp [normRecord, scheduleDocFor])
  | arr xs => exact absurd hd (by simp [normRecord, scheduleDocFor])
  | obj fs =>
      have hnr : normRecord (.obj fs) = .obj (normFields fs) := rfl
      rw [hnr] at hd
      simp only [scheduleDocFor] at hd
      split at hd
      · exact Option.noConfusion hd
      · split at hd
        next h2 => exact Option.noConfusion hd
        next h2 =>
          injection hd with hd'
          subst hd'
          simp only
          have htr : ((getField (normFields fs) "timings").getD (.arr [])).truthy
              = true := by
            rcases Bool.or_eq_false_iff.mp (Bool.eq_false_iff.mpr h2) with ⟨ha, _⟩
            simpa using ha
          rcases normFields_timings_shape fs with ⟨ts, hgf, hne, hshape⟩ | ⟨hsame, hnil⟩
          · rw [hshape]
            exact timingsOkB_of _ (goodTimings_ne_nil ts) (goodTimings_all ts)
          · rw [hsame] at htr ⊢
            cases hgr : getField fs "timings" with
            | none =>
                rw [hgr] at htr
                simp [JVal.truthy] at htr
            | some v =>
                rw [hgr] at htr
                simp only [Option.getD_some] at htr
                simp only [rawTimingsTameB, hgr] at hm
                by_cases hva : v.isArr = true
                · cases v with
                  | arr ts =>
                      have := hnil ts hgr
                      subst this
                      simp [JVal.truthy] at htr
                  | null => simp [JVal.isArr] at hva
                  | bool b => simp [JVal.isArr] at hva
                  | num n => simp [JVal.isArr] at hva
                  | str s => simp [JVal.isArr] at hva
                  | obj gs => simp [JVal.isArr] at hva
                · rw [Bool.eq_false_iff.mpr hva] at hm
                  simp only [Bool.false_or, Bool.not_eq_true'] at hm
                  rw [hm] at htr
                  exact Bool.noConfusion htr

theorem makeSchedules_timingsOk (uid pid : String) (parsed : Option JVal)
    (htame : tameParsed parsed) :
    ∀ d ∈ makeSchedules uid pid (normalizeMedicines parsed),
      timingsOkB d.timings = true := by
  intro d hd
  cases parsed with
  | none =>
      have hz : makeSchedules uid pid (normalizeMedicines none) = [] := rfl
      rw [hz] at hd
      exact absurd hd (List.not_mem_nil d)
  | some v =>
      cases v with
      | arr xs =>
          rw [makeSchedules, schedulesLoop_eq_filterMap] at hd
          simp only [normalizeMedicines, elemsOf, List.mem_filterMap,
            List.mem_map] at hd
          obtain ⟨m', ⟨m, hm, rfl⟩, hdoc⟩ := hd
          exact timingsOk_of_norm uid pid m (htame m hm) d hdoc
      | obj gs =>
          rw [makeSchedules, schedulesLoop_eq_filterMap] at hd
          simp only [normalizeMedicines, iterableJ, if_true, elemsOf,
            List.mem_filterMap, List.mem_map] at hd
          obtain ⟨m', ⟨p, hp, rfl⟩, hdoc⟩ := hd
          exact absurd hdoc (by simp [scheduleDocFor])
      | str s =>
          rw [makeSchedules, schedulesLoop_eq_filterMap] at hd
          simp only [normalizeMedicines, iterableJ, if_true, elemsOf,
            List.mem_filterMap, List.mem_map] at hd
          obtain ⟨m', ⟨c, hc, rfl⟩, hdoc⟩ := hd
          exact absurd hdoc (by simp [scheduleDocFor])
      | null =>
          have hz : makeSchedules uid pid (normalizeMedicines (some .null)) = [] := rfl
          rw [hz] at hd
          exact absurd hd (List.not_mem_nil d)
      | bool b =>
          have hz : makeSchedules uid pid (normalizeMedicines (some (.bool b))) = []
            := rfl
          rw [hz] at hd
          exact absurd hd (List.not_mem_nil d)
      | num n =>
          have hz : makeSchedules uid pid (normalizeMedicines (some (.num n))) = []
            := rfl
          rw [hz] at hd
          exact absurd hd (List.not_mem_nil d)

theorem mem_insertScheduleDocs (docs : List SchedDoc) (st : Store) (s : Sched)
    (hs : s ∈ (insertScheduleDocs st docs).1.schedules) :
    s ∈ st.schedules ∨ ∃ d ∈ docs, s.timings = d.timings := by
  induction docs generalizing st with
  | nil =>
      left
      simpa [insertScheduleDocs] using hs
  | cons d rest ih =>
      simp only [insertScheduleDocs] at hs
      rcases ih _ hs with hin | ⟨d', hd', ht⟩
      · simp only [List.mem_append, List.mem_singleton] at hin
        rcases hin with h | h
        · exact .inl h
        · right
          refine ⟨d, List.mem_cons_self _ _, ?_⟩
          subst h
          rfl
      · exact .inr ⟨d', List.mem_cons_of_mem _ hd', ht⟩

/-! ### Dispatch-run lemmas -/

theorem runLoop_calls (users : List User)
    (notify : String → JVal → JVal → String → Except Unit Bool)
    (period : String) (now : Nat) (ms scheds : List Sched) :
    (runLoop users notify period now scheds ms).2 =
      ms.filterMap (fun s => (resolveEmail users s.user_id).map
        (fun em => { to_email := em, medicine_name := s.medicine_name,
                     dosage := s.dosage, timing := period })) := by
  induction ms generalizing scheds with
  | nil => rfl
  | cons s rest ih =>
      unfold runLoop
      cases hr : resolveEmail users s.user_id with
      | none => simp [hr, ih, List.filterMap_cons]
      | some em =>
          cases hn : notify em s.medicine_name s.dosage period with
          | error e => simp [hr, hn, ih, List.filterMap_cons]
          | ok b => cases b <;> simp [hr, hn, ih, List.filterMap_cons]

theorem updateById_eq_map (l : List Sched) (i : Nat) (f : Sched → Sched)
    (h : (l.map Sched.id).Nodup) :
    updateById l i f = l.map (fun x => if x.id = i then f x else x) := by
  induction l with
  | nil => rfl
  | cons s rest ih =>
      simp only [List.map_cons, List.nodup_cons] at h
      by_cases hs : s.id = i
      · rw [updateById, if_pos hs, List.map_cons, if_pos hs]
        have hrest : rest.map (fun x => if x.id = i then f x else x) = rest := by
          have : ∀ x ∈ rest, (if x.id = i then f x else x) = x := by
            intro x hx
            rw [if_neg]
            intro hxi
            exact h.1 (hs ▸ hxi ▸ List.mem_map_of_mem Sched.id hx)
          calc rest.map (fun x => if x.id = i then f x else x)
              = rest.map id := List.map_congr_left this
            _ = rest := List.map_id rest
        rw [hrest]
      · rw [updateById, if_neg hs, List.map_cons, if_neg hs, ih h.2]

theorem setNow_id (now : Nat) (s : Sched) : (setNow now s).id = s.id := rfl

theorem setNow_setNow (now : Nat) (s : Sched) :
    setNow now (setNow now s) = setNow now s := rfl

theorem runLoop_state (users : List User)
    (notify : String → JVal → JVal → String → Except Unit Bool)
    (period : String) (now : Nat) (ms scheds : List Sched)
    (h : (scheds.map Sched.id).Nodup) :
    (runLoop users notify period now scheds ms).1 =
      scheds.map (fun x =>
        if ms.any (fun m => m.id == x.id && reminderSent users notify period m)
        then setNow now x else x) := by
  induction ms generalizing scheds with
  | nil =>
      simp only [runLoop, List.any_nil, Bool.false_eq_true, if_false]
      exact (List.map_id scheds).symm
  | cons m rest ih =>
      have hsent : ∀ x : Sched,
          ((m :: rest).any (fun m' => m'.id == x.id && reminderSent users notify period m'))
            = ((m.id == x.id && reminderSent users notify period m)
               || rest.any (fun m' => m'.id == x.id && reminderSent users notify period m')) := by
        intro x
        simp [List.any_cons]
      unfold runLoop
      cases hr : resolveEmail users m.user_id with
      | none =>
          have hsf : reminderSent users notify period m = false := by
            simp [reminderSent, hr]
          rw [ih scheds h]
          apply List.map_congr_left
          intro x hx
          rw [hsent x, hsf]
          simp
      | some em =>
          cases hn : notify em m.medicine_name m.dosage period with
          | error e =>
              have hsf : reminderSent users notify period m = false := by
                simp [reminderSent, hr, hn]
              simp only [hn]
              rw [ih scheds h]
              apply List.map_congr_left
              intro x hx
              rw [hsent x, hsf]
              simp
          | ok b =>
              cases b with
              | false =>
                  have hsf : reminderSent users notify period m = false := by
                    simp [reminderSent, hr, hn]
                  simp only [hn]
                  rw [ih scheds h]
                  apply List.map_congr_left
                  intro x hx
                  rw [hsent x, hsf]
                  simp
              | true =>
                  have hst : reminderSent users notify period m = true := by
                    simp [reminderSent, hr, hn]
                  simp only [hn]
                  rw [updateById_eq_map scheds m.id (setNow now) h]
                  have hids : ((scheds.map (fun x => if x.id = m.id then setNow now x else x)).map Sched.id)
                      = scheds.map Sched.id := by
                    rw [List.map_map]
                    apply List.map_congr_left
                    intro x hx
                    by_cases hxe : x.id = m.id
                    · simp [Function.comp, hxe, setNow_id]
                    · simp [Function.comp, hxe]
                  rw [ih _ (by rw [hids]; exact h)]
                  rw [List.map_map]
                  apply List.map_congr_left
                  intro x hx
                  simp only [Function.comp]
                  by_cases hxe : x.id = m.id
                  · rw [if_pos hxe, hsent x, hst]
                    have hmx : (m.id == x.id) = true := by
                      simp [hxe.symm]
                    rw [hmx]
                    simp only [Bool.true_and, Bool.true_or, if_true]
                    have : rest.any (fun m' => m'.id == (setNow now x).id
                        && reminderSent users notify period m')
                        = rest.any (fun m' => m'.id == x.id
                        && reminderSent users notify period m') := by
                      rw [setNow_id]
                    rw [this]
                    by_cases hra : rest.any (fun m' => m'.id == x.id
                        && reminderSent users notify period m') = true
                    · rw [hra]
                      simp only [if_true]
                      exact setNow_setNow now x
                    · rw [Bool.eq_false_iff.mpr hra]
                      simp
                  · rw [if_neg hxe, hsent x, hst]
                    have hmx : (m.id == x.id) = false := by
                      simp
                      exact fun hh => hxe hh.symm
                    rw [hmx]
                    simp

/-! ### Toggle/delete lemmas -/

theorem updateById_id_of_not_mem (l : List Sched) (i : Nat) (f : Sched → Sched)
    (h : ∀ s ∈ l, s.id ≠ i) : updateById l i f = l := by
  induction l with
  | nil => rfl
  | cons s rest ih =>
      rw [updateById, if_neg (h s (List.mem_cons_self _ _))]
      rw [ih (fun x hx => h x (List.mem_cons_of_mem _ hx))]

theorem deleteById_count_zero_iff (l : List Sched) (i : Nat) :
    (deleteById l i).2 = 0 ↔ ∀ s ∈ l, s.id ≠ i := by
  induction l with
  | nil => simp [deleteById]
  | cons s rest ih =>
      by_cases hs : s.id = i
      · rw [deleteById, if_pos hs]
        simp only [List.mem_cons]
        constructor
        · intro hc
          exact absurd hc (by simp)
        · intro hall
          exact absurd hs (hall s (Or.inl rfl))
      · rw [deleteById, if_neg hs]
        simp only [List.mem_cons]
        constructor
        · intro hc x hx
          rcases hx with rfl | hx
          · exact hs
          · exact ih.mp hc x hx
        · intro hall
          exact ih.mpr (fun x hx => hall x (Or.inr hx))

theorem deleteById_fst_of_not_mem (l : List Sched) (i : Nat)
    (h : ∀ s ∈ l, s.id ≠ i) : (deleteById l i).1 = l := by
  induction l with
  | nil => rfl
  | cons s rest ih =>
      rw [deleteById, if_neg (h s (List.mem_cons_self _ _))]
      simp only
      rw [ih (fun x hx => h x (List.mem_cons_of_mem _ hx))]

theorem any_id_eq_false_iff (l : List Sched) (i : Nat) :
    (l.any (fun s => s.id == i)) = false ↔ ∀ s ∈ l, s.id ≠ i := by
  simp [List.any_eq_true]

/-! ### Claim theorems -/

/-- Claim C3: period resolution is a pure total function of the current hour
only: for every hour h in [0,24), the resolved period is morning iff
6 <= h < 12, afternoon iff 12 <= h < 17, evening iff 17 <= h < 21, and
night otherwise; in particular hour 7 gives morning, 12 gives afternoon,
17 gives evening, 21 gives night, and 3 gives night. -/
theorem c3_timing_period_pure (h : Nat) (hh : h < 24) :
    ((timing_period h = "morning" ↔ 6 ≤ h ∧ h < 12)
     ∧ (timing_period h = "afternoon" ↔ 12 ≤ h ∧ h < 17)
     ∧ (timing_period h = "evening" ↔ 17 ≤ h ∧ h < 21)
     ∧ (timing_period h = "night" ↔ (h < 6 ∨ 21 ≤ h)))
    ∧ timing_period 7 = "morning" ∧ timing_period 12 = "afternoon"
    ∧ timing_period 17 = "evening" ∧ timing_period 21 = "night"
    ∧ timing_period 3 = "night" := by
  revert h
  decide

/-- Witness for C3 at hour 7. -/
theorem c3_witness :
    7 < 24 ∧ (timing_period 7 = "morning" ↔ 6 ≤ 7 ∧ 7 < 12) :=
  ⟨by decide, (c3_timing_period_pure 7 (by decide)).1.1⟩

/-- Claim C10: upload verifies the owning user before any other work: for
every upload request whose user_id does not resolve to an existing user,
the operation fails with NotFound and no prescription document and no
schedule document is created (state unchanged on this error). -/
theorem c10_user_check_first (st : Store) (uid text : String)
    (llm : Except String String) (parse : String → Option JVal)
    (h : userExists st uid = false) :
    upload_prescription st uid text llm parse =
      (st, .error { status := 404, detail := "User not found" }) := by
  unfold upload_prescription
  rw [h]
  rfl

/-- Witness for C10: an empty user table rejects the upload untouched. -/
theorem c10_witness :
    userExists { users := [], prescriptions := [], schedules := [], nextId := 0 } "u1"
      = false
    ∧ upload_prescription
        { users := [], prescriptions := [], schedules := [], nextId := 0 }
        "u1" "t" (.ok "x") (fun _ => none) =
      ({ users := [], prescriptions := [], schedules := [], nextId := 0 },
       .error { status := 404, detail := "User not found" }) :=
  ⟨rfl, c10_user_check_first _ "u1" "t" (.ok "x") (fun _ => none) rfl⟩

/-- Claim C8: toggling a schedule's enabled flag by id fails with NotFound
iff the id does not match any stored schedule, and deleting a schedule by
id fails with NotFound iff no schedule matches; in both NotFound cases no
stored schedule is modified or removed. -/
theorem c8_toggle_delete_not_found (st : Store) (sid : Nat) (b : Bool) :
    ((toggle_schedule st sid b).2 =
        .error { status := 404, detail := "Schedule not found" }
      ↔ ∀ s ∈ st.schedules, s.id ≠ sid)
    ∧ ((∀ s ∈ st.schedules, s.id ≠ sid) → (toggle_schedule st sid b).1 = st)
    ∧ ((delete_schedule st sid).2 =
        .error { status := 404, detail := "Schedule not found" }
      ↔ ∀ s ∈ st.schedules, s.id ≠ sid)
    ∧ ((∀ s ∈ st.schedules, s.id ≠ sid) → (delete_schedule st sid).1 = st) := by
  refine ⟨?_, ?_, ?_, ?_⟩
  · unfold toggle_schedule
    by_cases hc : (st.schedules.any (fun s => s.id == sid)) = true
    · rw [if_pos hc]
      constructor
      · intro he
        exact absurd he (by simp)
      · intro hall
        rw [← any_id_eq_false_iff st.schedules sid] at hall
        rw [hall] at hc
        exact Bool.noConfusion hc
    · rw [if_neg hc]
      simp only [true_iff]
      exact (any_id_eq_false_iff st.schedules sid).mp (Bool.eq_false_iff.mpr hc)
  · intro hall
    unfold toggle_schedule
    rw [updateById_id_of_not_mem _ _ _ hall]
    by_cases hc : (st.schedules.any (fun s => s.id == sid)) = true
    · rw [if_pos hc]
    · rw [if_neg hc]
  · simp only [delete_schedule]
    by_cases hc : (deleteById st.schedules sid).2 = 0
    · have hb : ((deleteById st.schedules sid).2 == 0) = true := by
        simp [hc]
      rw [if_pos hb]
      simp only [true_iff]
      exact (deleteById_count_zero_iff st.schedules sid).mp hc
    · have hb : ((deleteById st.schedules sid).2 == 0) = false := by
        simp [hc]
      rw [hb]
      simp only [Bool.false_eq_true, if_false]
      constructor
      · intro he
        exact absurd he (by simp)
      · intro hall
        exact absurd ((deleteById_count_zero_iff st.schedules sid).mpr hall) hc
  · intro hall
    simp only [delete_schedule]
    have hc := (deleteById_count_zero_iff st.schedules sid).mpr hall
    have hb : ((deleteById st.schedules sid).2 == 0) = true := by
      simp [hc]
    rw [if_pos hb]
    simp only
    rw [deleteById_fst_of_not_mem _ _ hall]

/-- Witness for C8 on an empty store and id 5. -/
theorem c8_witness :
    (∀ s ∈ ({ users := [], prescriptions := [], schedules := [], nextId := 0 } : Store).schedules, s.id ≠ 5)
    ∧ (toggle_schedule { users := [], prescriptions := [], schedules := [], nextId := 0 } 5 true).2 =
        .error { status := 404, detail := "Schedule not found" }
    ∧ (delete_schedule { users := [], prescriptions := [], schedules := [], nextId := 0 } 5).1 =
        { users := [], prescriptions := [], schedules := [], nextId := 0 } :=
  have h := c8_toggle_delete_not_found
    { users := [], prescriptions := [], schedules := [], nextId := 0 } 5 true
  have hall : ∀ s ∈ ({ users := [], prescriptions := [], schedules := [], nextId := 0 } : Store).schedules, s.id ≠ 5 :=
    fun s hs => absurd hs (List.not_mem_nil s)
  ⟨hall, h.1.mpr hall, h.2.2.2 hall⟩

/-- Claim C9: normalization is idempotent on well-formed input: for every
raw reply that is a valid JSON array of objects, applying the normalization
steps to the already-normalized output yields the same output. -/
theorem c9_normalization_idempotent (xs : List JVal)
    (_hobj : ∀ m ∈ xs, m.isObj = true) :
    normalizeMedicines (some (normalizeMedicines (some (.arr xs)))) =
      normalizeMedicines (some (.arr xs)) := by
  simp only [normalizeMedicines]
  rw [List.map_map]
  congr 1
  apply List.map_congr_left
  intro m hm
  simp only [Function.comp]
  exact normRecord_idem m

/-- Witness for C9 on a one-record array. -/
theorem c9_witness :
    (∀ m ∈ [JVal.obj [("medicine_name", JVal.str "Aspirin"),
        ("timings", JVal.arr [JVal.str "morning", JVal.str "noon"])]],
      m.isObj = true)
    ∧ normalizeMedicines (some (normalizeMedicines (some (.arr
        [JVal.obj [("medicine_name", JVal.str "Aspirin"),
          ("timings", JVal.arr [JVal.str "morning", JVal.str "noon"])]])))) =
      normalizeMedicines (some (.arr
        [JVal.obj [("medicine_name", JVal.str "Aspirin"),
          ("timings", JVal.arr [JVal.str "morning", JVal.str "noon"])]])) :=
  ⟨by decide, c9_normalization_idempotent _ (by decide)⟩

/-- Claim C7: a dispatch run processes each matching schedule independently:
if the owning user cannot be resolved or has no contact address, the
Notifier is not invoked for that schedule and processing continues; any
exception raised while processing one schedule (the notifier oracle
returning `.error`) is caught and the remaining schedules in the same run
are still processed — the notifier calls made are exactly one per matching
schedule with a resolvable owner, in order, for every notifier behavior. -/
theorem c7_run_isolation (st : Store) (hour now : Nat)
    (notify : String → JVal → JVal → String → Except Unit Bool) :
    (check_and_send_reminders st hour now notify).2 =
      (st.schedules.filter (fun s => s.enabled
          && timingsMatch s.timings (timing_period hour))).filterMap
        (fun s => (resolveEmail st.users s.user_id).map
          (fun em => { to_email := em, medicine_name := s.medicine_name,
                       dosage := s.dosage, timing := timing_period hour }))
    ∧ ∀ notify2 : String → JVal → JVal → String → Except Unit Bool,
        (check_and_send_reminders st hour now notify).2 =
          (check_and_send_reminders st hour now notify2).2 := by
  constructor
  · exact runLoop_calls st.users notify (timing_period hour) now _ _
  · intro notify2
    exact (runLoop_calls st.users notify (timing_period hour) now _ _).trans
      (runLoop_calls st.users notify2 (timing_period hour) now _ _).symm

/-- Claim C6: during a dispatch run, for every matching schedule, the engine
writes last_reminder_sent = now iff the Notifier reports success for that
schedule (a failure report or an exception leaves the schedule completely
unchanged); consequently last_reminder_sent, once set, only moves forward
in time (monotonic per schedule). -/
theorem c6_last_reminder_sent (st : Store) (hour now : Nat)
    (notify : String → JVal → JVal → String → Except Unit Bool)
    (h : (st.schedules.map Sched.id).Nodup) :
    (check_and_send_reminders st hour now notify).1.schedules =
      st.schedules.map (fun s =>
        if s.enabled && timingsMatch s.timings (timing_period hour)
            && reminderSent st.users notify (timing_period hour) s
        then setNow now s else s)
    ∧ (∀ s ∈ st.schedules, ∀ t, s.last_reminder_sent = some t → t ≤ now →
        ∀ t', (if s.enabled && timingsMatch s.timings (timing_period hour)
                  && reminderSent st.users notify (timing_period hour) s
               then setNow now s else s).last_reminder_sent = some t' →
          t ≤ t') := by
  constructor
  · have hrun := runLoop_state st.users notify (timing_period hour) now
      (st.schedules.filter (fun s => s.enabled
        && timingsMatch s.timings (timing_period hour))) st.schedules h
    have hchk : (check_and_send_reminders st hour now notify).1.schedules =
        (runLoop st.users notify (timing_period hour) now st.schedules
          (st.schedules.filter (fun s => s.enabled
            && timingsMatch s.timings (timing_period hour)))).1 := rfl
    rw [hchk, hrun]
    apply List.map_congr_left
    intro x hx
    apply if_congr _ rfl rfl
    constructor
    · intro hany
      rw [List.any_eq_true] at hany
      obtain ⟨m, hmf, hmp⟩ := hany
      rw [List.mem_filter] at hmf
      rw [Bool.and_eq_true] at hmp
      have hid : m.id = x.id := by
        have := hmp.1
        simpa using this
      have hmx : m = x :=
        List.inj_on_of_nodup_map h hmf.1 hx hid
      subst hmx
      rw [Bool.and_eq_true]
      exact ⟨hmf.2, hmp.2⟩
    · intro hcond
      rw [Bool.and_eq_true, Bool.and_eq_true] at hcond
      rw [List.any_eq_true]
      refine ⟨x, ?_, ?_⟩
      · rw [List.mem_filter]
        exact ⟨hx, by rw [Bool.and_eq_true]; exact hcond.1⟩
      · rw [Bool.and_eq_true]
        exact ⟨by simp, hcond.2⟩
  · intro s hs t ht htle t' ht'
    by_cases hcond : (s.enabled && timingsMatch s.timings (timing_period hour)
        && reminderSent st.users notify (timing_period hour) s) = true
    · rw [if_pos hcond] at ht'
      simp only [setNow] at ht'
      injection ht' with ht''
      omega
    · rw [if_neg hcond] at ht'
      rw [ht] at ht'
      injection ht' with ht''
      omega

/-- Witness for C6: one enabled evening schedule, owner resolvable, notifier
succeeding; `last_reminder_sent` previously 10, run at hour 18 with now 99. -/
theorem c6_witness :
    (check_and_send_reminders ⟨[⟨"u1", some "e"⟩], [], [⟨3, "u1", "p", .str "A", .str "1", .str "d", .arr [.str "evening"], true, some 10⟩], 5⟩ 18 99 (fun _ _ _ _ => .ok true)).1.schedules =
      [(⟨3, "u1", "p", .str "A", .str "1", .str "d", .arr [.str "evening"], true, some 10⟩ : Sched)].map (fun s =>
        if s.enabled && timingsMatch s.timings (timing_period 18)
            && reminderSent [⟨"u1", some "e"⟩] (fun _ _ _ _ => .ok true) (timing_period 18) s
        then setNow 99 s else s) :=
  (c6_last_reminder_sent ⟨[⟨"u1", some "e"⟩], [], [⟨3, "u1", "p", .str "A", .str "1", .str "d", .arr [.str "evening"], true, some 10⟩], 5⟩ 18 99 (fun _ _ _ _ => .ok true) (by decide)).1

/-! ### Upload-shape helpers and remaining claims -/

theorem truthy_isEmptyList_false (v : JVal) (h : v.truthy = true) :
    v.isEmptyList = false := by
  cases v with
  | arr xs =>
      cases xs with
      | nil => simp [JVal.truthy] at h
      | cons a l => rfl
  | null => rfl
  | bool b => rfl
  | num n => rfl
  | str s => rfl
  | obj fs => rfl

theorem makeSchedules_fallback (uid pid : String) :
    makeSchedules uid pid (normalizeMedicines none) = [] := rfl

theorem upload_ok_eq (st : Store) (uid text reply : String)
    (parse : String → Option JVal) (hu : userExists st uid = true) :
    upload_prescription st uid text (.ok reply) parse =
      ((insertScheduleDocs (insertPrescription st uid text (cleanMarkdown reply)).1
          (makeSchedules uid
            (toString (insertPrescription st uid text (cleanMarkdown reply)).2)
            (normalizeMedicines (parse (cleanMarkdown reply))))).1,
       .ok { success := true,
             prescription_id :=
               toString (insertPrescription st uid text (cleanMarkdown reply)).2,
             schedule_ids :=
               (insertScheduleDocs (insertPrescription st uid text (cleanMarkdown reply)).1
                 (makeSchedules uid
                   (toString (insertPrescription st uid text (cleanMarkdown reply)).2)
                   (normalizeMedicines (parse (cleanMarkdown reply))))).2,
             medicines := normalizeMedicines (parse (cleanMarkdown reply)) }) := by
  unfold upload_prescription
  rw [hu]
  rfl

theorem upload_user_missing_fst (st : Store) (uid text : String)
    (llm : Except String String) (parse : String → Option JVal)
    (hu : userExists st uid = false) :
    (upload_prescription st uid text llm parse).1 = st := by
  unfold upload_prescription
  rw [hu]
  rfl

/-- Claim C1 counterexample: a record whose `timings` field is the truthy
non-list value "daily" is persisted verbatim, so the stored timings value is
not a non-empty subset of the four-value enum. -/
theorem c1_counterexample :
    ∃ s : Sched,
      (upload_prescription ⟨[⟨"u1", some "e"⟩], [], [], 0⟩ "u1" "raw" (.ok "reply")
        (fun _ => some (.arr [.obj [("medicine_name", .str "Aspirin"),
          ("timings", .str "daily")]]))).1.schedules = [s]
      ∧ s.timings = .str "daily"
      ∧ timingsOkB s.timings = false :=
  ⟨⟨1, "u1", "0", .str "Aspirin", .str "N/A", .str "N/A", .str "daily", true, none⟩,
    rfl, rfl, rfl⟩

/-- Claim C1 (amended): for every persisted MedicineSchedule created by the
upload pipeline, provided every record's raw timings value is missing, a
list, or falsy, the stored timings field is a non-empty subset of
{morning, afternoon, evening, night}; a record with a truthy non-list
timings value is persisted with that raw value unfiltered. -/
theorem c1_amended_timings_invariant (st : Store) (uid text reply : String)
    (parse : String → Option JVal)
    (htame : tameParsed (parse (cleanMarkdown reply))) :
    ∀ s ∈ (upload_prescription st uid text (.ok reply) parse).1.schedules,
      s ∈ st.schedules ∨ timingsOkB s.timings = true := by
  intro s hs
  by_cases hu : userExists st uid = true
  · rw [upload_ok_eq st uid text reply parse hu] at hs
    simp only at hs
    rcases mem_insertScheduleDocs _ _ _ hs with hin | ⟨d, hd, ht⟩
    · exact .inl hin
    · right
      rw [ht]
      exact makeSchedules_timingsOk uid _ _ htame d hd
  · rw [upload_user_missing_fst st uid text _ parse (Bool.eq_false_iff.mpr hu)] at hs
    exact .inl hs

/-- Witness for C1 (amended): a tame record is persisted with enum timings. -/
theorem c1_witness :
    tameParsed ((fun _ => some (.arr [.obj [("medicine_name", .str "Aspirin"),
        ("timings", .arr [.str "morning", .str "noon"])]])) (cleanMarkdown "r"))
    ∧ ∀ s ∈ (upload_prescription ⟨[⟨"u1", some "e"⟩], [], [], 0⟩ "u1" "t" (.ok "r")
        (fun _ => some (.arr [.obj [("medicine_name", .str "Aspirin"),
          ("timings", .arr [.str "morning", .str "noon"])]]))).1.schedules,
        s ∈ (⟨[⟨"u1", some "e"⟩], [], [], 0⟩ : Store).schedules
        ∨ timingsOkB s.timings = true :=
  ⟨fun m hm => by rw [List.mem_singleton] at hm; subst hm; rfl,
   c1_amended_timings_invariant ⟨[⟨"u1", some "e"⟩], [], [], 0⟩ "u1" "t" "r" _
     (fun m hm => by rw [List.mem_singleton] at hm; subst hm; rfl)⟩

/-- Claim C2 counterexample: for the unparsable reply "not json" the
normalizer produces the "Unknown" placeholder, but zero (not one) schedules
are persisted, because "Unknown" is a sentinel name the persistence filter
drops. -/
theorem c2_counterexample :
    normalizeMedicines none =
      .arr [.obj [("medicine_name", .str "Unknown"), ("dosage", .str "As prescribed"),
        ("frequency", .str "Daily"), ("timings", .arr [.str "morning"])]]
    ∧ (upload_prescription ⟨[⟨"u1", some "e"⟩], [], [], 0⟩ "u1" "raw"
        (.ok "not json") (fun _ => none)).1.schedules = []
    ∧ ¬((upload_prescription ⟨[⟨"u1", some "e"⟩], [], [], 0⟩ "u1" "raw"
        (.ok "not json") (fun _ => none)).1.schedules.length = 1) := by
  refine ⟨rfl, rfl, ?_⟩
  have hz : (upload_prescription ⟨[⟨"u1", some "e"⟩], [], [], 0⟩ "u1" "raw"
      (.ok "not json") (fun _ => none)).1.schedules = [] := rfl
  rw [hz]
  decide

/-- Claim C2 (amended): for every raw reply that fails to parse as JSON,
normalization produces exactly one placeholder record (medicine_name
"Unknown", dosage "As prescribed", frequency "Daily", timings ["morning"]),
which is returned in the response; the upload persists zero schedules from
it, since the sentinel name "Unknown" is dropped by the persistence filter. -/
theorem c2_amended_fallback (st : Store) (uid text reply : String)
    (parse : String → Option JVal) (hu : userExists st uid = true)
    (hparse : parse (cleanMarkdown reply) = none) :
    normalizeMedicines (parse (cleanMarkdown reply)) =
      .arr [.obj [("medicine_name", .str "Unknown"), ("dosage", .str "As prescribed"),
        ("frequency", .str "Daily"), ("timings", .arr [.str "morning"])]]
    ∧ (upload_prescription st uid text (.ok reply) parse).1.schedules = st.schedules
    ∧ ∃ resp, (upload_prescription st uid text (.ok reply) parse).2 = .ok resp
        ∧ resp.medicines = normalizeMedicines (parse (cleanMarkdown reply))
        ∧ resp.schedule_ids = [] := by
  refine ⟨by rw [hparse]; rfl, ?_, ?_⟩
  · rw [upload_ok_eq st uid text reply parse hu]
    simp only
    rw [hparse, makeSchedules_fallback]
    rfl
  · rw [upload_ok_eq st uid text reply parse hu]
    refine ⟨_, rfl, rfl, ?_⟩
    simp only
    rw [hparse, makeSchedules_fallback]
    rfl

/-- Witness for C2 (amended) on a one-user store. -/
theorem c2_witness :
    userExists ⟨[⟨"u1", some "e"⟩], [], [], 0⟩ "u1" = true
    ∧ (fun _ : String => (none : Option JVal)) (cleanMarkdown "x") = none
    ∧ (upload_prescription ⟨[⟨"u1", some "e"⟩], [], [], 0⟩ "u1" "raw" (.ok "x")
        (fun _ => none)).1.schedules = (⟨[⟨"u1", some "e"⟩], [], [], 0⟩ : Store).schedules :=
  ⟨rfl, rfl,
   (c2_amended_fallback ⟨[⟨"u1", some "e"⟩], [], [], 0⟩ "u1" "raw" "x"
     (fun _ => none) rfl rfl).2.1⟩

/-- Claim C4 counterexample: a record with an originally empty timings list
is left with an empty list by normalization, not defaulted to ["morning"]. -/
theorem c4_counterexample :
    getField (normFields [("medicine_name", .str "Ibuprofen"),
      ("timings", .arr [])]) "timings" = some (.arr [])
    ∧ some (JVal.arr []) ≠ some (JVal.arr [.str "morning"]) := by
  refine ⟨rfl, ?_⟩
  intro hcontra
  injection hcontra with h1
  injection h1 with h2
  exact absurd h2 (by simp)

/-- Claim C4 (amended): for every parsed record whose timings value is a
non-empty list, normalization filters it to the four recognized values
preserving source order, and defaults to ["morning"] exactly when the
filtered list is empty; an originally empty (or falsy, or missing) timings
value is left unchanged and the record is later dropped by the persistence
filter. -/
theorem c4_amended_timings_filter (fs : List (String × JVal)) (ts : List JVal)
    (hg : getField fs "timings" = some (.arr ts)) (hne : ts ≠ []) :
    getField (normFields fs) "timings" =
      some (.arr (if (ts.filter isValidTiming).isEmpty then [.str "morning"]
                  else ts.filter isValidTiming)) := by
  rcases normFields_timings_shape fs with ⟨ts', hg', hne', hshape⟩ | ⟨hsame, hnil⟩
  · rw [hg] at hg'
    injection hg' with h1
    injection h1 with h2
    subst h2
    exact hshape
  · exact absurd (hnil ts hg) hne

/-- Witness for C4 (amended): a record with only the unrecognized timing
"noon" is defaulted to ["morning"]. -/
theorem c4_witness :
    getField [("medicine_name", JVal.str "X"),
      ("timings", JVal.arr [JVal.str "noon"])] "timings" =
        some (.arr [JVal.str "noon"])
    ∧ getField (normFields [("medicine_name", JVal.str "X"),
        ("timings", JVal.arr [JVal.str "noon"])]) "timings" =
        some (.arr (if ([JVal.str "noon"].filter isValidTiming).isEmpty
          then [.str "morning"] else [JVal.str "noon"].filter isValidTiming)) :=
  ⟨rfl, c4_amended_timings_filter _ [JVal.str "noon"] rfl (List.cons_ne_nil _ _)⟩


/-- Claim C5: a normalized record is persisted as a schedule iff its
medicine_name is truthy (non-empty) and not one of the sentinels "N/A",
"Unknown", "Unknown Medicine", and its timings value is truthy (non-empty);
a record with dosage or frequency equal to "N/A" but a valid name and
non-empty timings is still persisted. -/
theorem c5_persistence_filter (uid pid : String) :
    (∀ medicines : JVal, makeSchedules uid pid medicines =
        (elemsOf medicines).filterMap (scheduleDocFor uid pid))
    ∧ (∀ fs : List (String × JVal),
        (scheduleDocFor uid pid (.obj fs)).isSome = true ↔
          (((getField fs "medicine_name").getD (.str "N/A")).truthy = true
           ∧ isSentinelName ((getField fs "medicine_name").getD (.str "N/A")) = false
           ∧ ((getField fs "timings").getD (.arr [])).truthy = true))
    ∧ (∀ (n : String) (ts : List JVal), n ≠ "" →
        n ∉ (["N/A", "Unknown", "Unknown Medicine"] : List String) → ts ≠ [] →
        scheduleDocFor uid pid (.obj [("medicine_name", .str n),
          ("dosage", .str "N/A"), ("frequency", .str "N/A"),
          ("timings", .arr ts)]) =
          some { user_id := uid, prescription_id := pid,
                 medicine_name := .str n, dosage := .str "N/A",
                 frequency := .str "N/A", timings := .arr ts }) := by
  refine ⟨?_, ?_, ?_⟩
  · intro medicines
    exact schedulesLoop_eq_filterMap uid pid (elemsOf medicines)
  · intro fs
    simp only [scheduleDocFor]
    by_cases h1 : (!((getField fs "medicine_name").getD (.str "N/A")).truthy
        || isSentinelName ((getField fs "medicine_name").getD (.str "N/A"))) = true
    · rw [if_pos h1]
      simp only [Option.isSome_none, Bool.false_eq_true, false_iff]
      rintro ⟨ha, hb, -⟩
      rw [ha, hb] at h1
      simp at h1
    · rw [if_neg h1]
      have h1' := Bool.or_eq_false_iff.mp (Bool.eq_false_iff.mpr h1)
      have hname : ((getField fs "medicine_name").getD (.str "N/A")).truthy
          = true := by
        have hx := h1'.1
        simpa using hx
      by_cases h2 : (!((getField fs "timings").getD (.arr [])).truthy
          || ((getField fs "timings").getD (.arr [])).isEmptyList) = true
      · rw [if_pos h2]
        simp only [Option.isSome_none, Bool.false_eq_true, false_iff]
        rintro ⟨-, -, hc⟩
        rw [hc, truthy_isEmptyList_false _ hc] at h2
        simp at h2
      · rw [if_neg h2]
        have h2' := Bool.or_eq_false_iff.mp (Bool.eq_false_iff.mpr h2)
        have htim : ((getField fs "timings").getD (.arr [])).truthy = true := by
          have hx := h2'.1
          simpa using hx
        simp only [Option.isSome_some, true_iff]
        exact ⟨hname, h1'.2, htim⟩
  · intro n ts hn hns hts
    have hIE : n.isEmpty = false :=
      Bool.eq_false_iff.mpr (fun hI => hn ((String.isEmpty_iff _).mp hI))
    have htne : (JVal.str n).truthy = true := by
      simp [JVal.truthy, hIE]
    have hsent : isSentinelName (.str n) = false := by
      rw [Bool.eq_false_iff]
      intro hc
      simp only [isSentinelName] at hc
      exact hns (by simpa using hc)
    have htsE : ts.isEmpty = false := by
      cases ts with
      | nil => exact absurd rfl hts
      | cons a l => rfl
    have httr : (JVal.arr ts).truthy = true := by
      simp [JVal.truthy, htsE]
    have htel : (JVal.arr ts).isEmptyList = false := by
      cases ts with
      | nil => exact absurd rfl hts
      | cons a l => rfl
    simp only [scheduleDocFor]
    have hg1 : getField [("medicine_name", JVal.str n), ("dosage", JVal.str "N/A"),
        ("frequency", JVal.str "N/A"), ("timings", JVal.arr ts)] "medicine_name"
        = some (.str n) := rfl
    have hg2 : getField [("medicine_name", JVal.str n), ("dosage", JVal.str "N/A"),
        ("frequency", JVal.str "N/A"), ("timings", JVal.arr ts)] "timings"
        = some (.arr ts) := rfl
    have hg3 : getField [("medicine_name", JVal.str n), ("dosage", JVal.str "N/A"),
        ("frequency", JVal.str "N/A"), ("timings", JVal.arr ts)] "dosage"
        = some (.str "N/A") := rfl
    have hg4 : getField [("medicine_name", JVal.str n), ("dosage", JVal.str "N/A"),
        ("frequency", JVal.str "N/A"), ("timings", JVal.arr ts)] "frequency"
        = some (.str "N/A") := rfl
    rw [hg1, hg2, hg3, hg4]
    simp only [Option.getD_some]
    rw [htne, hsent, httr, htel]
    simp

/-- Witness for C5: a record with dosage and frequency "N/A" but a valid
name and one timing is persisted. -/
theorem c5_witness :
    scheduleDocFor "u" "p" (.obj [("medicine_name", .str "Aspirin"),
      ("dosage", .str "N/A"), ("frequency", .str "N/A"),
      ("timings", .arr [.str "night"])]) =
      some { user_id := "u", prescription_id := "p",
             medicine_name := .str "Aspirin", dosage := .str "N/A",
             frequency := .str "N/A", timings := .arr [.str "night"] } :=
  (c5_persistence_filter "u" "p").2.2 "Aspirin" [.str "night"]
    (by decide) (by decide) (List.cons_ne_nil _ _)
